import Mathlib

/-!
Shallow embedding of the Flashmaster core (flashmaster-core) and of the
file-backed store (flashmaster-json), together with theorems checking the
specification's claims against it.

Modelling conventions:
* UUIDs are modelled as `Nat` identifiers.
* Timestamps (`chrono::DateTime<Utc>`) are modelled as `Int` milliseconds
  since the epoch; `chrono::Duration::days d` is `d * msPerDay` and
  `Duration::num_hours` is integer division by `msPerHour` (for the
  non-negative durations that occur in `due_status` all division
  conventions agree).
* `f32` easiness values are modelled as `ℚ`; the literals 0.1, 0.08, 0.02,
  1.3, 2.8 of the source become the corresponding rationals.
* `HashMap<K, V>` is modelled as an association list `List (Nat × V)`;
  iteration over `values()` is iteration over the list.
* The ambient effects of the Rust code (reading the clock `Utc::now()`,
  drawing a fresh `Uuid::new_v4()`, the success or failure of disk
  persistence) are made explicit arguments of the embedded functions.
-/

namespace Flashmaster

/-- `Grade` from models.rs. -/
inductive Grade where
  | hard
  | medium
  | easy
deriving DecidableEq, Repr

/-- `Grade::as_score` from models.rs: Hard=1, Medium=2, Easy=3. -/
def Grade.as_score : Grade → Int
  | .hard => 1
  | .medium => 2
  | .easy => 3

/-- `DueStatus` from models.rs. -/
inductive DueStatus where
  | new
  | dueToday
  | lapsed
  | future
deriving DecidableEq, Repr

/-- `EF_MIN` from models.rs (1.3). -/
def EF_MIN : ℚ := 13/10

/-- `EF_MAX` from models.rs (2.8). -/
def EF_MAX : ℚ := 28/10

/-- `EF_DEFAULT` from models.rs (2.5). -/
def EF_DEFAULT : ℚ := 25/10

/-- `Deck` from models.rs. -/
structure Deck where
  id : Nat
  name : String
  created_at : Int
deriving DecidableEq, Repr

/-- `Card` from models.rs. -/
structure Card where
  id : Nat
  deck_id : Nat
  front : String
  back : String
  hint : Option String
  tags : List String
  reps : Nat
  interval_days : Nat
  ef : ℚ
  due_at : Int
  last_grade : Option Grade
  last_reviewed_at : Option Int
  suspended : Bool
  created_at : Int
deriving DecidableEq, Repr

/-- `Review` from models.rs. -/
structure Review where
  id : Nat
  card_id : Nat
  grade : Grade
  reviewed_at : Int
  interval_applied : Int
  ef_after : ℚ
deriving DecidableEq, Repr

/-- `Card::new(deck_id, front, back)` from models.rs; the fresh uuid and the
clock reads are explicit arguments. -/
def Card.mkNew (deck_id : Nat) (front back : String) (newId : Nat) (now : Int) : Card :=
  { id := newId
    deck_id := deck_id
    front := front
    back := back
    hint := none
    tags := []
    reps := 0
    interval_days := 0
    ef := EF_DEFAULT
    due_at := now
    last_grade := none
    last_reviewed_at := none
    suspended := false
    created_at := now }

/-- `Card::is_new` from models.rs. -/
def Card.is_new (c : Card) : Bool := c.reps = 0

def msPerHour : Int := 3600000

def msPerDay : Int := 86400000

/-- `Card::due_status(now)` from models.rs: New if `reps == 0`, else Future
if `due_at > now`, else Lapsed when `(now - due_at).num_hours() >= 24`,
else DueToday. -/
def Card.due_status (c : Card) (now : Int) : DueStatus :=
  if c.is_new then .new
  else if c.due_at > now then .future
  else
    let elapsed := now - c.due_at
    if elapsed / msPerHour ≥ 24 then .lapsed else .dueToday

/-- `Review::new` from models.rs; the fresh uuid is an explicit argument. -/
def Review.mkNew (card_id : Nat) (grade : Grade) (reviewed_at : Int)
    (interval_applied : Int) (ef_after : ℚ) (newId : Nat) : Review :=
  { id := newId
    card_id := card_id
    grade := grade
    reviewed_at := reviewed_at
    interval_applied := interval_applied
    ef_after := ef_after }

/-! ## Scheduler (scheduler.rs) -/

/-- `ScheduleOutcome` from scheduler.rs. -/
structure ScheduleOutcome where
  updated_card : Card
  review : Review
deriving DecidableEq, Repr

/-- `clamp_ef` from scheduler.rs: `x.clamp(EF_MIN, EF_MAX)`. -/
def clamp_ef (x : ℚ) : ℚ :=
  if x < EF_MIN then EF_MIN else if x > EF_MAX then EF_MAX else x

/-- `f32::round` (round half away from zero), on the rational model. -/
def rustRound (x : ℚ) : Int :=
  if 0 ≤ x then ⌊x + 1/2⌋ else -⌊-x + 1/2⌋

/-- The easiness delta computed inside `apply_grade`:
`0.1 - (3 - g) as f32 * (0.08 + (3 - g) as f32 * 0.02)`. -/
def ef_delta (g : Int) : ℚ :=
  1/10 - ((3 - g : Int) : ℚ) * (8/100 + ((3 - g : Int) : ℚ) * (2/100))

/-- `apply_grade(card, grade)` from scheduler.rs.  The source reads the
clock (`let now = Utc::now()`) and draws a fresh review uuid inside
`Review::new`; both ambient effects are explicit arguments `now` and
`rid` here. -/
def apply_grade (card : Card) (grade : Grade) (now : Int) (rid : Nat) : ScheduleOutcome :=
  let g := grade.as_score
  let new_ef := clamp_ef (card.ef + ef_delta g)
  let ri : Nat × Nat :=
    if g < 2 then
      (0, 1)
    else
      let new_reps := card.reps + 1
      let new_interval :=
        if new_reps = 1 then 1
        else if new_reps = 2 then 6
        else
          let base : ℚ := (max card.interval_days 1 : Nat)
          (max (rustRound (base * new_ef)) 1).toNat
      (new_reps, new_interval)
  let card' : Card :=
    { card with
      ef := new_ef
      reps := ri.1
      interval_days := ri.2
      due_at := now + (ri.2 : Int) * msPerDay
      last_grade := some grade
      last_reviewed_at := some now }
  let review := Review.mkNew card.id grade now (ri.2 : Int) new_ef rid
  { updated_card := card', review := review }

/-! ## Filters (filters.rs) -/

/-- `filter_by_due(cards, now, want)` from filters.rs. -/
def filter_by_due (cards : List Card) (now : Int) (want : DueStatus) : List Card :=
  cards.filter (fun c => c.due_status now = want)

/-- `filter_not_suspended(cards)` from filters.rs. -/
def filter_not_suspended (cards : List Card) : List Card :=
  cards.filter (fun c => !c.suspended)

/-! ## Errors (errors.rs) -/

/-- `CoreError` from errors.rs.  The payloads are the `&'static str`
messages of the source. -/
inductive CoreError where
  | notFound (what : String)
  | invalid (what : String)
  | conflict (what : String)
  | storage (what : String)
deriving DecidableEq, Repr

/-! ## Association-list model of `HashMap` -/

/-- `HashMap::get` / lookup. -/
def mapGet {α : Type} : List (Nat × α) → Nat → Option α
  | [], _ => none
  | e :: m, k => if e.1 = k then some e.2 else mapGet m k

/-- `HashMap::remove`: drop the entry with the given key. -/
def mapRemove {α : Type} (m : List (Nat × α)) (k : Nat) : List (Nat × α) :=
  m.filter (fun e => e.1 != k)

/-- `HashMap::insert`: replace any entry with the given key. -/
def mapInsert {α : Type} (m : List (Nat × α)) (k : Nat) (v : α) : List (Nat × α) :=
  mapRemove m k ++ [(k, v)]

/-- `HashMap::contains_key`. -/
def mapContains {α : Type} (m : List (Nat × α)) (k : Nat) : Bool :=
  (mapGet m k).isSome

/-- `HashMap::values` as a list. -/
def mapValues {α : Type} (m : List (Nat × α)) : List α :=
  m.map (fun e => e.2)

/-- `str::eq_ignore_ascii_case` on the character lists of the strings:
each ASCII upper-case letter compares equal to its lower-case form. -/
def toAsciiLower (c : Char) : Char :=
  if 'A' ≤ c ∧ c ≤ 'Z' then Char.ofNat (c.toNat + 32) else c

def eqIgnoreAsciiCase (a b : String) : Bool :=
  a.toList.map toAsciiLower == b.toList.map toAsciiLower

/-! ## Shared repository mutation cores

`MemoryRepo` (repo/memory.rs) and `JsonStore` (flashmaster-json/src/lib.rs)
perform textually identical mutations on their deck/card/review maps; the
common cores are factored out here and used by both embeddings. -/

/-- The conflict check of `create_deck`:
`m.values().any(|d| d.name.eq_ignore_ascii_case(name))`. -/
def deckNameConflict (decks : List (Nat × Deck)) (name : String) : Bool :=
  (mapValues decks).any (fun d => eqIgnoreAsciiCase d.name name)

/-- The cascade of `delete_deck` once the deck has been removed:
collect the ids of the cards owned by the deck, then remove each such card
and its review list. -/
def deleteDeckCascade (cards : List (Nat × Card)) (reviews : List (Nat × List Review))
    (id : Nat) : List (Nat × Card) × List (Nat × List Review) :=
  let ids := ((mapValues cards).filter (fun c => c.deck_id == id)).map (fun c => c.id)
  ids.foldl (fun t cid => (mapRemove t.1 cid, mapRemove t.2 cid)) (cards, reviews)

/-! ## In-memory repository (repo/memory.rs)

Mutating operations are embedded in state-passing style
`state → args → result × state`; on an error returned before the mutation
the original state is returned unchanged, matching the early `return` of
the source. -/

/-- The state of `MemoryRepo` from repo/memory.rs. -/
structure MemoryRepo where
  decks : List (Nat × Deck)
  cards : List (Nat × Card)
  reviews : List (Nat × List Review)
deriving DecidableEq, Repr

def MemoryRepo.empty : MemoryRepo := ⟨[], [], []⟩

/-- `MemoryRepo::create_deck`; the fresh deck uuid and the clock read of
`Deck::new` are explicit arguments. -/
def MemoryRepo.create_deck (s : MemoryRepo) (name : String) (newId : Nat) (now : Int) :
    Except CoreError Deck × MemoryRepo :=
  let deck : Deck := { id := newId, name := name, created_at := now }
  if deckNameConflict s.decks name then
    (.error (.conflict "deck name already exists"), s)
  else
    (.ok deck, { s with decks := mapInsert s.decks deck.id deck })

/-- `MemoryRepo::get_deck`. -/
def MemoryRepo.get_deck (s : MemoryRepo) (id : Nat) : Except CoreError Deck :=
  match mapGet s.decks id with
  | some d => .ok d
  | none => .error (.notFound "deck")

/-- `MemoryRepo::delete_deck`. -/
def MemoryRepo.delete_deck (s : MemoryRepo) (id : Nat) :
    Except CoreError Unit × MemoryRepo :=
  if mapContains s.decks id then
    let decks := mapRemove s.decks id
    let cr := deleteDeckCascade s.cards s.reviews id
    (.ok (), { decks := decks, cards := cr.1, reviews := cr.2 })
  else
    (.error (.notFound "deck"), s)

/-- `MemoryRepo::add_card`; fresh card uuid and clock are explicit. -/
def MemoryRepo.add_card (s : MemoryRepo) (deck_id : Nat) (front back : String)
    (hint : Option String) (tags : List String) (newId : Nat) (now : Int) :
    Except CoreError Card × MemoryRepo :=
  if mapContains s.decks deck_id then
    let card := { Card.mkNew deck_id front back newId now with hint := hint, tags := tags }
    (.ok card, { s with cards := mapInsert s.cards card.id card })
  else
    (.error (.notFound "deck"), s)

/-- `MemoryRepo::get_card`. -/
def MemoryRepo.get_card (s : MemoryRepo) (id : Nat) : Except CoreError Card :=
  match mapGet s.cards id with
  | some c => .ok c
  | none => .error (.notFound "card")

/-- `MemoryRepo::list_cards`. -/
def MemoryRepo.list_cards (s : MemoryRepo) (deck_id : Option Nat) : List Card :=
  let v := mapValues s.cards
  match deck_id with
  | some did => v.filter (fun c => c.deck_id == did)
  | none => v

/-- `MemoryRepo::update_card`. -/
def MemoryRepo.update_card (s : MemoryRepo) (card : Card) :
    Except CoreError Card × MemoryRepo :=
  if mapContains s.cards card.id then
    (.ok card, { s with cards := mapInsert s.cards card.id card })
  else
    (.error (.notFound "card"), s)

/-- `MemoryRepo::delete_card`. -/
def MemoryRepo.delete_card (s : MemoryRepo) (id : Nat) :
    Except CoreError Unit × MemoryRepo :=
  if mapContains s.cards id then
    (.ok (), { s with cards := mapRemove s.cards id, reviews := mapRemove s.reviews id })
  else
    (.error (.notFound "card"), s)

/-- `MemoryRepo::set_suspended` (`get_mut` updates the entry in place). -/
def MemoryRepo.set_suspended (s : MemoryRepo) (id : Nat) (suspended : Bool) :
    Except CoreError Unit × MemoryRepo :=
  if mapContains s.cards id then
    (.ok (),
     { s with
       cards := s.cards.map (fun e =>
         if e.1 == id then (e.1, { e.2 with suspended := suspended }) else e) })
  else
    (.error (.notFound "card"), s)

/-- `MemoryRepo::insert_review` (`entry(..).or_default().push(..)`). -/
def MemoryRepo.insert_review (s : MemoryRepo) (r : Review) :
    Except CoreError Unit × MemoryRepo :=
  let cur := (mapGet s.reviews r.card_id).getD []
  (.ok (), { s with reviews := mapInsert s.reviews r.card_id (cur ++ [r]) })

/-- `MemoryRepo::list_reviews_for_card`
(`get(&card_id).cloned().unwrap_or_default()`). -/
def MemoryRepo.list_reviews_for_card (s : MemoryRepo) (card_id : Nat) : List Review :=
  (mapGet s.reviews card_id).getD []

/-! ## File-backed store (flashmaster-json/src/lib.rs)

The in-memory `State` of `JsonStore` holds the same maps as `MemoryRepo`
plus the snapshot timestamps.  `save()` updates `updated_at` under the
write lock and then performs the disk write; whether that disk write
succeeds is the ambient effect, made explicit as the `persistOk` flag.
A failed disk write becomes `CoreError::Storage("io")` and the in-memory
mutation is not rolled back, exactly as in the source. -/

/-- The `State` of `JsonStore`. -/
structure JsonState where
  created_at : Int
  updated_at : Int
  decks : List (Nat × Deck)
  cards : List (Nat × Card)
  reviews : List (Nat × List Review)
deriving DecidableEq, Repr

/-- `JsonStore::save`: set `updated_at` to the current clock, then attempt
the snapshot write; an I/O failure surfaces as `Storage("io")`. -/
def JsonState.save (s : JsonState) (now : Int) (persistOk : Bool) :
    Except CoreError Unit × JsonState :=
  let s1 := { s with updated_at := now }
  (if persistOk then .ok () else .error (.storage "io"), s1)

/-- `JsonStore::create_deck`. -/
def JsonState.create_deck (s : JsonState) (name : String) (newId : Nat) (now : Int)
    (persistOk : Bool) : Except CoreError Deck × JsonState :=
  let deck : Deck := { id := newId, name := name, created_at := now }
  if deckNameConflict s.decks name then
    (.error (.conflict "deck name already exists"), s)
  else
    let s1 := { s with decks := mapInsert s.decks deck.id deck }
    let sv := s1.save now persistOk
    match sv.1 with
    | .error e => (.error e, sv.2)
    | .ok _ => (.ok deck, sv.2)

/-- `JsonStore::get_deck`. -/
def JsonState.get_deck (s : JsonState) (id : Nat) : Except CoreError Deck :=
  match mapGet s.decks id with
  | some d => .ok d
  | none => .error (.notFound "deck")

/-- `JsonStore::delete_deck`. -/
def JsonState.delete_deck (s : JsonState) (id : Nat) (now : Int) (persistOk : Bool) :
    Except CoreError Unit × JsonState :=
  if mapContains s.decks id then
    let decks := mapRemove s.decks id
    let cr := deleteDeckCascade s.cards s.reviews id
    let s1 := { s with decks := decks, cards := cr.1, reviews := cr.2 }
    s1.save now persistOk
  else
    (.error (.notFound "deck"), s)

/-- `JsonStore::add_card`. -/
def JsonState.add_card (s : JsonState) (deck_id : Nat) (front back : String)
    (hint : Option String) (tags : List String) (newId : Nat) (now : Int)
    (persistOk : Bool) : Except CoreError Card × JsonState :=
  if mapContains s.decks deck_id then
    let card := { Card.mkNew deck_id front back newId now with hint := hint, tags := tags }
    let s1 := { s with cards := mapInsert s.cards card.id card }
    let sv := s1.save now persistOk
    match sv.1 with
    | .error e => (.error e, sv.2)
    | .ok _ => (.ok card, sv.2)
  else
    (.error (.notFound "deck"), s)

/-- `JsonStore::get_card`. -/
def JsonState.get_card (s : JsonState) (id : Nat) : Except CoreError Card :=
  match mapGet s.cards id with
  | some c => .ok c
  | none => .error (.notFound "card")

/-- `JsonStore::list_cards`. -/
def JsonState.list_cards (s : JsonState) (deck_id : Option Nat) : List Card :=
  let v := mapValues s.cards
  match deck_id with
  | some did => v.filter (fun c => c.deck_id == did)
  | none => v

/-- `JsonStore::update_card`. -/
def JsonState.update_card (s : JsonState) (card : Card) (now : Int) (persistOk : Bool) :
    Except CoreError Card × JsonState :=
  if mapContains s.cards card.id then
    let s1 := { s with cards := mapInsert s.cards card.id card }
    let sv := s1.save now persistOk
    match sv.1 with
    | .error e => (.error e, sv.2)
    | .ok _ => (.ok card, sv.2)
  else
    (.error (.notFound "card"), s)

/-- `JsonStore::delete_card`. -/
def JsonState.delete_card (s : JsonState) (id : Nat) (now : Int) (persistOk : Bool) :
    Except CoreError Unit × JsonState :=
  if mapContains s.cards id then
    let s1 := { s with cards := mapRemove s.cards id, reviews := mapRemove s.reviews id }
    s1.save now persistOk
  else
    (.error (.notFound "card"), s)

/-- `JsonStore::set_suspended`. -/
def JsonState.set_suspended (s : JsonState) (id : Nat) (suspended : Bool) (now : Int)
    (persistOk : Bool) : Except CoreError Unit × JsonState :=
  if mapContains s.cards id then
    let s1 : JsonState :=
      { s with
        cards := s.cards.map (fun (e : Nat × Card) =>
          if e.1 == id then (e.1, { e.2 with suspended := suspended }) else e) }
    s1.save now persistOk
  else
    (.error (.notFound "card"), s)

/-- `JsonStore::insert_review`. -/
def JsonState.insert_review (s : JsonState) (r : Review) (now : Int) (persistOk : Bool) :
    Except CoreError Unit × JsonState :=
  let cur := (mapGet s.reviews r.card_id).getD []
  let s1 := { s with reviews := mapInsert s.reviews r.card_id (cur ++ [r]) }
  s1.save now persistOk

/-- `JsonStore::list_reviews_for_card`. -/
def JsonState.list_reviews_for_card (s : JsonState) (card_id : Nat) : List Review :=
  (mapGet s.reviews card_id).getD []

/-! ## The snapshot write step (`write_with_backup`, lib.rs lines 164-190)

The micro-step trace of the primary path's content across one snapshot
write.  `pre` is the content of the primary file before the write (`none`
if it does not exist yet), `post` the serialized new snapshot.  The temp
file lives at a different path, so only two source lines touch the primary
path: `fs::remove_file(path)` and `tmp.persist(path)`. -/
def write_with_backup_trace (pre : Option (List Nat)) (post : List Nat) :
    List (Option (List Nat)) :=
  [ pre,        -- after `serde_json::to_vec_pretty` (no fs effect on the primary)
    pre,        -- after `NamedTempFile::new_in` (temp path only)
    pre,        -- after `tmp.write_all(&json)` (temp path only)
    pre,        -- after `tmp.flush()` (temp path only)
    none,       -- after `let _ = fs::remove_file(path)`: the primary is deleted
    some post ] -- after `tmp.persist(path)`: the rename lands the new version

/-! ## Backup rotation (`rotate_backups` and the backup write, lib.rs)

A backup directory is a set of files, modelled as a list of entries
carrying the file name (derived from the wall-clock second of the write,
modelled as a `Nat`) and the file's modification time.  One snapshot write
appends the serialized snapshot under its timestamped name — deleting any
file already holding that name, as `fs::remove_file(&backup_path)` +
`persist` do — and then rotates. -/

structure BackupEntry where
  name : Nat
  mtime : Nat
deriving DecidableEq, Repr

/-- Insertion step of the (stable) sort by modification time used to model
`entries.sort_by_key(|e| e.metadata().modified())`. -/
def insertByMtime (e : BackupEntry) : List BackupEntry → List BackupEntry
  | [] => [e]
  | f :: rest => if e.mtime ≤ f.mtime then e :: f :: rest else f :: insertByMtime e rest

def sortByMtime : List BackupEntry → List BackupEntry
  | [] => []
  | e :: rest => insertByMtime e (sortByMtime rest)

/-- `rotate_backups(dir, keep)`: sort by mtime ascending and delete the
entries before the last `keep` ones when there are more than `keep`. -/
def rotate_backups (dir : List BackupEntry) (keep : Nat) : List BackupEntry :=
  let entries := sortByMtime dir
  if entries.length > keep then entries.drop (entries.length - keep) else entries

/-- The backup half of `write_with_backup`: write the snapshot to
`flashmaster-<ts>.json` (replacing a same-named file) with the current
time as modification time, then rotate. -/
def writeBackup (dir : List BackupEntry) (name mtime keep : Nat) : List BackupEntry :=
  rotate_backups (dir.filter (fun e => e.name != name) ++ [⟨name, mtime⟩]) keep

/-- A run of snapshot writes: the `i`-th write (0-based) happens at
modification time `t + i` and produces a backup named by its wall-clock
second. -/
def runBackupsAux (keep : Nat) : List Nat → Nat → List BackupEntry → List BackupEntry
  | [], _, dir => dir
  | n :: rest, t, dir => runBackupsAux keep rest (t + 1) (writeBackup dir n t keep)

def runBackups (names : List Nat) (keep : Nat) : List BackupEntry :=
  runBackupsAux keep names 0 []

/-- The backup entries a run of writes would create with no rotation:
write `i` is named `names[i]` and has modification time `t + i`. -/
def enumFrom : Nat → List Nat → List BackupEntry
  | _, [] => []
  | t, n :: rest => ⟨n, t⟩ :: enumFrom (t + 1) rest

/-- `JsonStore::open_with` stores `max_backups.max(1)` as the retention
count. -/
def effectiveRetention (configured : Nat) : Nat := max configured 1

/-! ## Concrete sample data, used by the witnesses -/

def deckA : Deck := ⟨1, "Spanish", 0⟩

def cardA : Card := Card.mkNew 1 "hola" "hello" 2 0

def cardB : Card := { Card.mkNew 1 "adios" "goodbye" 3 0 with reps := 5, interval_days := 4 }

def cardL : Card := { Card.mkNew 1 "x" "y" 4 0 with reps := 1, interval_days := 1, due_at := 0 }

def reviewA : Review := ⟨102, 2, .medium, 3, 1, 25/10⟩

def reviewLate : Review := ⟨100, 7, .easy, 10, 1, 25/10⟩

def reviewEarly : Review := ⟨101, 7, .easy, 5, 1, 25/10⟩

def repoA : MemoryRepo := ⟨[(1, deckA)], [(2, cardA)], [(2, [reviewA])]⟩

def jsonA : JsonState := ⟨0, 0, [(1, deckA)], [(2, cardA)], [(2, [reviewA])]⟩

def jsonEmpty : JsonState := ⟨0, 0, [], [], []⟩

/-! ## Helper lemmas -/

theorem clamp_ef_bounds (x : ℚ) : EF_MIN ≤ clamp_ef x ∧ clamp_ef x ≤ EF_MAX := by
  unfold clamp_ef EF_MIN EF_MAX
  split_ifs with h1 h2 <;> push_neg at * <;> constructor <;> linarith

theorem apply_grade_ef (card : Card) (g : Grade) (now : Int) (rid : Nat) :
    (apply_grade card g now rid).updated_card.ef
      = clamp_ef (card.ef + ef_delta g.as_score) := rfl

theorem hours_threshold (e : Int) (he : 0 ≤ e) :
    24 ≤ e / msPerHour ↔ 24 * msPerHour ≤ e := by
  unfold msPerHour
  omega

theorem due_status_eq (c : Card) (now : Int) :
    c.due_status now =
      if c.reps = 0 then .new
      else if now < c.due_at then .future
      else if 24 * msPerHour ≤ now - c.due_at then .lapsed
      else .dueToday := by
  unfold Card.due_status Card.is_new
  by_cases h0 : c.reps = 0
  · simp [h0]
  · by_cases h1 : c.due_at > now
    · simp [h0, h1]
    · have he : 0 ≤ now - c.due_at := by omega
      simp [h0, h1, hours_threshold _ he]

/-! ## Claim theorems: scheduler and filters -/

/-- Claim C2: for every card and grade, `apply_grade` sets the new ef to
`clamp(card.ef + delta, 1.3, 2.8)` with
`delta = 0.1 - (3-g) * (0.08 + (3-g) * 0.02)`, so the delta is +0.1 for
Easy, 0.0 for Medium and -0.14 for Hard; consequently, from any starting
ef in [1.3, 2.8], the ef stays within [1.3, 2.8] under every sequence of
grades. -/
theorem c2_ef_formula_and_clamp_invariant :
    (∀ (card : Card) (g : Grade) (now : Int) (rid : Nat),
        (apply_grade card g now rid).updated_card.ef
          = clamp_ef (card.ef + ef_delta g.as_score))
    ∧ ef_delta Grade.easy.as_score = 1/10
    ∧ ef_delta Grade.medium.as_score = 0
    ∧ ef_delta Grade.hard.as_score = -(14/100)
    ∧ ∀ (c : Card), EF_MIN ≤ c.ef → c.ef ≤ EF_MAX →
        ∀ (gs : List (Grade × Int × Nat)),
          EF_MIN ≤ (gs.foldl (fun d p => (apply_grade d p.1 p.2.1 p.2.2).updated_card) c).ef
          ∧ (gs.foldl (fun d p => (apply_grade d p.1 p.2.1 p.2.2).updated_card) c).ef ≤ EF_MAX := by
  refine ⟨fun card g now rid => rfl, ?_, ?_, ?_, ?_⟩
  · norm_num [ef_delta, Grade.as_score]
  · norm_num [ef_delta, Grade.as_score]
  · norm_num [ef_delta, Grade.as_score]
  · intro c h1 h2 gs
    induction gs generalizing c with
    | nil => exact ⟨h1, h2⟩
    | cons p gs ih =>
        simp only [List.foldl_cons]
        exact ih _ (clamp_ef_bounds _).1 (clamp_ef_bounds _).2

theorem c2_ef_formula_and_clamp_invariant_witness :
    EF_MIN ≤ ([((Grade.hard : Grade), (0 : Int), (0 : Nat))].foldl
        (fun d p => (apply_grade d p.1 p.2.1 p.2.2).updated_card) cardA).ef
    ∧ ([((Grade.hard : Grade), (0 : Int), (0 : Nat))].foldl
        (fun d p => (apply_grade d p.1 p.2.1 p.2.2).updated_card) cardA).ef ≤ EF_MAX :=
  c2_ef_formula_and_clamp_invariant.2.2.2.2 cardA
    (by norm_num [cardA, Card.mkNew, EF_DEFAULT, EF_MIN])
    (by norm_num [cardA, Card.mkNew, EF_DEFAULT, EF_MAX])
    [(Grade.hard, 0, 0)]

/-- Claim C3: Hard (score 1 < 2) resets `reps` to 0 and `interval_days` to 1
regardless of the prior values; Medium/Easy increment `reps` and set
`interval_days` to 1 when the new reps is 1, to 6 when it is 2, and
otherwise to `round(max(prior_interval_days, 1) * new_ef)` floored at 1. -/
theorem c3_reps_and_interval_update (card : Card) (g : Grade) (now : Int) (rid : Nat) :
    (g.as_score < 2 →
        (apply_grade card g now rid).updated_card.reps = 0
        ∧ (apply_grade card g now rid).updated_card.interval_days = 1)
    ∧ (¬ g.as_score < 2 →
        (apply_grade card g now rid).updated_card.reps = card.reps + 1
        ∧ (apply_grade card g now rid).updated_card.interval_days
            = (if card.reps + 1 = 1 then 1
               else if card.reps + 1 = 2 then 6
               else (max (rustRound (((max card.interval_days 1 : Nat) : ℚ)
                        * (apply_grade card g now rid).updated_card.ef)) 1).toNat)) := by
  cases g
  · exact ⟨fun _ => ⟨rfl, rfl⟩, fun h => absurd (by decide) h⟩
  · exact ⟨fun h => absurd h (by decide), fun _ => ⟨rfl, rfl⟩⟩
  · exact ⟨fun h => absurd h (by decide), fun _ => ⟨rfl, rfl⟩⟩

theorem c3_reps_and_interval_update_witness :
    (apply_grade cardB .medium 0 0).updated_card.reps = cardB.reps + 1
    ∧ (apply_grade cardB .medium 0 0).updated_card.interval_days
        = (if cardB.reps + 1 = 1 then 1
           else if cardB.reps + 1 = 2 then 6
           else (max (rustRound (((max cardB.interval_days 1 : Nat) : ℚ)
                    * (apply_grade cardB .medium 0 0).updated_card.ef)) 1).toNat) :=
  (c3_reps_and_interval_update cardB .medium 0 0).2 (by decide)

/-- Claim C4, counterexample: `apply_grade` in the source takes only
`(card, grade)`; it reads the clock and draws a fresh review uuid
internally.  Two invocations with the same `(card, grade)` can therefore
differ: at the same instant they produce reviews with different ids, and
at different instants they produce different `due_at` values, so the
output is not a function of the claimed explicit argument list. -/
theorem c4_not_function_of_explicit_args :
    (apply_grade cardA .easy 0 5).review.id ≠ (apply_grade cardA .easy 0 6).review.id
    ∧ (apply_grade cardA .easy 0 5).updated_card.due_at
        ≠ (apply_grade cardA .easy msPerDay 5).updated_card.due_at := by
  constructor
  · decide
  · decide

/-- Claim C4 (amended): `apply_grade(card, grade)` samples the current
time and a fresh review id internally; holding those two sampled inputs
fixed it is deterministic — the updated card and every review field other
than the fresh id are a function of `(card, grade, sampled now)` alone,
and the review id is exactly the drawn uuid. -/
theorem c4_deterministic_given_sampled_inputs (card : Card) (g : Grade) (now : Int)
    (rid rid' : Nat) :
    (apply_grade card g now rid).updated_card = (apply_grade card g now rid').updated_card
    ∧ (apply_grade card g now rid).review.card_id
        = (apply_grade card g now rid').review.card_id
    ∧ (apply_grade card g now rid).review.grade
        = (apply_grade card g now rid').review.grade
    ∧ (apply_grade card g now rid).review.reviewed_at
        = (apply_grade card g now rid').review.reviewed_at
    ∧ (apply_grade card g now rid).review.interval_applied
        = (apply_grade card g now rid').review.interval_applied
    ∧ (apply_grade card g now rid).review.ef_after
        = (apply_grade card g now rid').review.ef_after
    ∧ (apply_grade card g now rid).review.id = rid :=
  ⟨rfl, rfl, rfl, rfl, rfl, rfl, rfl⟩

/-- Claim C5: the derived due status is exactly one of the four variants:
New iff `reps == 0` (independent of `due_at`); otherwise Future iff
`due_at > now`; otherwise Lapsed iff `now - due_at ≥ 24` hours, else
DueToday; hence `filter_by_due` puts every card of a card set into exactly
the one bucket matching its status. -/
theorem c5_due_status_partition (c : Card) (now : Int) :
    (c.due_status now = .new ↔ c.reps = 0)
    ∧ (c.reps ≠ 0 → (c.due_status now = .future ↔ now < c.due_at))
    ∧ (c.reps ≠ 0 → c.due_at ≤ now →
        (c.due_status now = .lapsed ↔ 24 * msPerHour ≤ now - c.due_at))
    ∧ (c.reps ≠ 0 → c.due_at ≤ now →
        (c.due_status now = .dueToday ↔ now - c.due_at < 24 * msPerHour))
    ∧ ∀ (cards : List Card) (s : DueStatus),
        c ∈ cards → (c ∈ filter_by_due cards now s ↔ c.due_status now = s) := by
  have hmem : ∀ (cards : List Card) (s : DueStatus), c ∈ cards →
      (c ∈ filter_by_due cards now s ↔ c.due_status now = s) := by
    intro cards s hc
    simp [filter_by_due, List.mem_filter, hc]
  refine ⟨?_, fun h => ?_, fun h hle => ?_, fun h hle => ?_, hmem⟩ <;>
    rw [due_status_eq] <;> split_ifs <;> simp_all <;> omega

theorem c5_due_status_partition_witness :
    cardL.due_status (2 * msPerDay) = .lapsed
    ∧ (cardL ∈ filter_by_due [cardL] (2 * msPerDay) .lapsed
        ↔ cardL.due_status (2 * msPerDay) = .lapsed) :=
  ⟨((c5_due_status_partition cardL (2 * msPerDay)).2.2.1 (by decide) (by decide)).mpr
      (by decide),
   (c5_due_status_partition cardL (2 * msPerDay)).2.2.2.2 [cardL] .lapsed (by simp)⟩

/-! ## Claim theorem: the snapshot write step -/

/-- Claim C1, failing point: `write_with_backup` runs
`fs::remove_file(path)` before `tmp.persist(path)`, so one intermediate
point of the write step (index 4 of the micro-step trace) has no file at
the primary path at all — neither the pre-write nor the post-write
version, refuting that the old version stays present until the atomic
replace. -/
theorem c1_primary_file_deleted_before_rename :
    (write_with_backup_trace (some [1]) [2])[4]? = some none
    ∧ ¬ ∀ s ∈ write_with_backup_trace (some [1]) [2], s = some [1] ∨ s = some [2] := by
  decide

/-! ## Helper lemmas for the association-list maps -/

theorem mapGet_mapRemove_self {α : Type} (m : List (Nat × α)) (k : Nat) :
    mapGet (mapRemove m k) k = none := by
  induction m with
  | nil => rfl
  | cons e m ih =>
      by_cases h : e.1 = k
      · simpa [mapRemove, List.filter_cons, h] using ih
      · simpa [mapRemove, List.filter_cons, mapGet, h] using ih

theorem mapGet_mapRemove_other {α : Type} (m : List (Nat × α)) (k k' : Nat) (h : k' ≠ k) :
    mapGet (mapRemove m k) k' = mapGet m k' := by
  induction m with
  | nil => rfl
  | cons e m ih =>
      by_cases he : e.1 = k
      · have he' : e.1 ≠ k' := by omega
        simpa [mapRemove, List.filter_cons, mapGet, he, he', Ne.symm h] using ih
      · by_cases he' : e.1 = k'
        · simp [mapRemove, List.filter_cons, mapGet, he, he', h]
        · simpa [mapRemove, List.filter_cons, mapGet, he, he'] using ih

theorem mapGet_mapInsert_self {α : Type} (m : List (Nat × α)) (k : Nat) (v : α) :
    mapGet (mapInsert m k v) k = some v := by
  induction m with
  | nil => simp [mapInsert, mapRemove, mapGet]
  | cons e m ih =>
      by_cases h : e.1 = k
      · simpa [mapInsert, mapRemove, List.filter_cons, h] using ih
      · simpa [mapInsert, mapRemove, List.filter_cons, mapGet, h] using ih

theorem mapGet_none_of_filter {α : Type} (m : List (Nat × α)) (p : Nat × α → Bool) (k : Nat)
    (h : ∀ e ∈ m, e.1 = k → p e = false) :
    mapGet (m.filter p) k = none := by
  induction m with
  | nil => rfl
  | cons e m ih =>
      have ih' := ih (fun f hf => h f (by simp [hf]))
      by_cases hp : p e = true
      · have he : e.1 ≠ k := fun hk => by simp [h e (by simp) hk] at hp
        simpa [List.filter_cons, hp, mapGet, he] using ih'
      · simpa [List.filter_cons, Bool.of_not_eq_true hp] using ih'

theorem mapGet_mapUpdate {α : Type} (m : List (Nat × α)) (k : Nat) (g : α → α) :
    mapGet (m.map (fun e => if e.1 == k then (e.1, g e.2) else e)) k
      = (mapGet m k).map g := by
  induction m with
  | nil => rfl
  | cons e m ih =>
      by_cases h : e.1 = k
      · simp [mapGet, h]
      · simpa [mapGet, h] using ih

theorem filter_remove_aux {α : Type} (cid : Nat) (ids : List Nat) (l : List (Nat × α)) :
    (mapRemove l cid).filter (fun e => !ids.contains e.1)
      = l.filter (fun e => !(cid :: ids).contains e.1) := by
  unfold mapRemove
  rw [List.filter_filter]
  apply List.filter_congr
  intro e _
  by_cases h : e.1 = cid <;> simp [h, List.contains_cons]

theorem foldRemove_eq (ids : List Nat) (cards : List (Nat × Card))
    (reviews : List (Nat × List Review)) :
    ids.foldl (fun t cid => (mapRemove t.1 cid, mapRemove t.2 cid)) (cards, reviews)
      = (cards.filter (fun e => !ids.contains e.1),
         reviews.filter (fun e => !ids.contains e.1)) := by
  induction ids generalizing cards reviews with
  | nil => simp
  | cons cid ids ih =>
      simp only [List.foldl_cons]
      rw [ih]
      rw [filter_remove_aux, filter_remove_aux]

theorem deleteDeckCascade_eq (cards : List (Nat × Card)) (reviews : List (Nat × List Review))
    (id : Nat) :
    deleteDeckCascade cards reviews id
      = (cards.filter (fun e =>
           !(((mapValues cards).filter (fun c => c.deck_id == id)).map (fun c => c.id)).contains e.1),
         reviews.filter (fun e =>
           !(((mapValues cards).filter (fun c => c.deck_id == id)).map (fun c => c.id)).contains e.1)) := by
  unfold deleteDeckCascade
  exact foldRemove_eq _ _ _

theorem mem_cascade_ids (cards : List (Nat × Card)) (id : Nat) (c : Card)
    (hc : c ∈ mapValues cards) (hd : c.deck_id = id) :
    c.id ∈ ((mapValues cards).filter (fun c => c.deck_id == id)).map (fun c => c.id) :=
  List.mem_map.mpr ⟨c, List.mem_filter.mpr ⟨hc, by simp [hd]⟩, rfl⟩

theorem cascade_post (cards : List (Nat × Card)) (reviews : List (Nat × List Review))
    (id : Nat) (hkeys : ∀ e ∈ cards, e.1 = e.2.id) :
    (mapValues (deleteDeckCascade cards reviews id).1).filter (fun c => c.deck_id == id) = []
    ∧ ∀ c ∈ mapValues cards, c.deck_id = id →
        mapGet (deleteDeckCascade cards reviews id).2 c.id = none := by
  rw [deleteDeckCascade_eq]
  constructor
  · rw [List.filter_eq_nil_iff]
    intro c hc
    obtain ⟨e, he, rfl⟩ := List.mem_map.mp hc
    obtain ⟨he1, he2⟩ := List.mem_filter.mp he
    intro hdid
    have hdid' : e.2.deck_id = id := by simpa using hdid
    have hmem := mem_cascade_ids cards id e.2 (List.mem_map.mpr ⟨e, he1, rfl⟩) hdid'
    rw [← hkeys e he1] at hmem
    simp [hmem] at he2
  · intro c hc hdid
    apply mapGet_none_of_filter
    intro e _ hek
    have hmem := mem_cascade_ids cards id c hc hdid
    simp [hek, hmem]

/-! ## Claim theorem: deck deletion -/

/-- Claim C6: in both the in-memory repository and the file-backed store,
`delete_deck(id)` fails with NotFound and leaves the state unchanged when
no deck with that id exists; on success it removes the deck, every card of
the deck and the reviews of those cards, so that afterwards `list_cards`
for that deck id is empty and `list_reviews_for_card` for every formerly
owned card is empty.  (The key of every card entry is the card's id, as
every store operation maintains.) -/
theorem c6_delete_deck_cascades (s : MemoryRepo) (j : JsonState) (id : Nat) (now : Int)
    (persistOk : Bool) :
    (mapGet s.decks id = none →
        s.delete_deck id = (.error (.notFound "deck"), s))
    ∧ (mapGet s.decks id ≠ none → (∀ e ∈ s.cards, e.1 = e.2.id) →
        (s.delete_deck id).1 = .ok ()
        ∧ mapGet (s.delete_deck id).2.decks id = none
        ∧ (s.delete_deck id).2.list_cards (some id) = []
        ∧ ∀ c ∈ mapValues s.cards, c.deck_id = id →
            (s.delete_deck id).2.list_reviews_for_card c.id = [])
    ∧ (mapGet j.decks id = none →
        j.delete_deck id now persistOk = (.error (.notFound "deck"), j))
    ∧ (mapGet j.decks id ≠ none → (∀ e ∈ j.cards, e.1 = e.2.id) →
        (persistOk = true → (j.delete_deck id now persistOk).1 = .ok ())
        ∧ mapGet (j.delete_deck id now persistOk).2.decks id = none
        ∧ (j.delete_deck id now persistOk).2.list_cards (some id) = []
        ∧ ∀ c ∈ mapValues j.cards, c.deck_id = id →
            (j.delete_deck id now persistOk).2.list_reviews_for_card c.id = []) := by
  refine ⟨fun h => ?_, fun h hkeys => ?_, fun h => ?_, fun h hkeys => ?_⟩
  · simp [MemoryRepo.delete_deck, mapContains, h]
  · have hc : mapContains s.decks id = true := by
      simp [mapContains, Option.isSome_iff_ne_none, h]
    obtain ⟨hnil, hrev⟩ := cascade_post s.cards s.reviews id hkeys
    refine ⟨by simp [MemoryRepo.delete_deck, hc], ?_, ?_, ?_⟩
    · simp [MemoryRepo.delete_deck, hc, mapGet_mapRemove_self]
    · simpa [MemoryRepo.delete_deck, hc, MemoryRepo.list_cards] using hnil
    · intro c hcm hdid
      simp only [MemoryRepo.delete_deck, hc, if_true, MemoryRepo.list_reviews_for_card]
      rw [hrev c hcm hdid]
      rfl
  · simp [JsonState.delete_deck, mapContains, h]
  · have hc : mapContains j.decks id = true := by
      simp [mapContains, Option.isSome_iff_ne_none, h]
    obtain ⟨hnil, hrev⟩ := cascade_post j.cards j.reviews id hkeys
    refine ⟨fun hp => by simp [JsonState.delete_deck, hc, JsonState.save, hp], ?_, ?_, ?_⟩
    · simp [JsonState.delete_deck, hc, JsonState.save, mapGet_mapRemove_self]
    · simpa [JsonState.delete_deck, hc, JsonState.save, JsonState.list_cards] using hnil
    · intro c hcm hdid
      simp only [JsonState.delete_deck, hc, if_true, JsonState.save,
        JsonState.list_reviews_for_card]
      rw [hrev c hcm hdid]
      rfl

theorem c6_delete_deck_cascades_witness :
    (repoA.delete_deck 1).1 = .ok ()
    ∧ mapGet (repoA.delete_deck 1).2.decks 1 = none
    ∧ (repoA.delete_deck 1).2.list_cards (some 1) = []
    ∧ ∀ c ∈ mapValues repoA.cards, c.deck_id = 1 →
        (repoA.delete_deck 1).2.list_reviews_for_card c.id = [] :=
  (c6_delete_deck_cascades repoA jsonA 1 0 true).2.1
    (by simp [repoA, deckA, mapGet])
    (by simp [repoA, cardA, Card.mkNew])

/-! ## Claim theorem: deck creation conflict -/

/-- Claim C7: in both the in-memory repository and the file-backed store,
`create_deck(name)` fails with Conflict exactly when a deck whose name
matches the given name case-insensitively (the source's ASCII
case-insensitive comparison) already exists, leaving the state unchanged;
otherwise it inserts a deck with that name (for the file-backed store the
returned success additionally requires the snapshot write to succeed). -/
theorem c7_create_deck_conflict_iff (s : MemoryRepo) (j : JsonState) (name : String)
    (newId : Nat) (now : Int) (persistOk : Bool) :
    ((s.create_deck name newId now).1 = .error (.conflict "deck name already exists")
        ↔ ∃ d ∈ mapValues s.decks, eqIgnoreAsciiCase d.name name = true)
    ∧ (deckNameConflict s.decks name = true → (s.create_deck name newId now).2 = s)
    ∧ (deckNameConflict s.decks name = false →
        (s.create_deck name newId now).1 = .ok ⟨newId, name, now⟩
        ∧ mapGet (s.create_deck name newId now).2.decks newId = some ⟨newId, name, now⟩)
    ∧ ((j.create_deck name newId now persistOk).1
          = .error (.conflict "deck name already exists")
        ↔ ∃ d ∈ mapValues j.decks, eqIgnoreAsciiCase d.name name = true)
    ∧ (deckNameConflict j.decks name = true →
        (j.create_deck name newId now persistOk).2 = j)
    ∧ (deckNameConflict j.decks name = false →
        (persistOk = true →
          (j.create_deck name newId now persistOk).1 = .ok ⟨newId, name, now⟩)
        ∧ mapGet (j.create_deck name newId now persistOk).2.decks newId
            = some ⟨newId, name, now⟩) := by
  refine ⟨?_, fun hc => ?_, fun hc => ?_, ?_, fun hc => ?_, fun hc => ?_⟩
  · by_cases hconf : deckNameConflict s.decks name = true
    · constructor
      · intro _
        simpa [deckNameConflict, List.any_eq_true] using hconf
      · intro _
        simp [MemoryRepo.create_deck, hconf]
    · have hno : ¬ ∃ d ∈ mapValues s.decks, eqIgnoreAsciiCase d.name name = true := by
        simpa [deckNameConflict, List.any_eq_true] using hconf
      simp [MemoryRepo.create_deck, hconf, hno]
  · simp [MemoryRepo.create_deck, hc]
  · simp only [MemoryRepo.create_deck, hc, Bool.false_eq_true, if_false]
    exact ⟨trivial, mapGet_mapInsert_self _ _ _⟩
  · by_cases hconf : deckNameConflict j.decks name = true
    · constructor
      · intro _
        simpa [deckNameConflict, List.any_eq_true] using hconf
      · intro _
        simp [JsonState.create_deck, hconf]
    · have hno : ¬ ∃ d ∈ mapValues j.decks, eqIgnoreAsciiCase d.name name = true := by
        simpa [deckNameConflict, List.any_eq_true] using hconf
      cases persistOk <;> simp [JsonState.create_deck, hconf, JsonState.save, hno]
  · simp [JsonState.create_deck, hc]
  · cases persistOk <;>
      simp [JsonState.create_deck, hc, JsonState.save, mapGet_mapInsert_self]

theorem c7_create_deck_conflict_iff_witness :
    (deckNameConflict repoA.decks "spanish" = true →
      (repoA.create_deck "spanish" 9 5).2 = repoA)
    ∧ ((repoA.create_deck "spanish" 9 5).1
        = .error (.conflict "deck name already exists")
      ↔ ∃ d ∈ mapValues repoA.decks, eqIgnoreAsciiCase d.name "spanish" = true) :=
  ⟨(c7_create_deck_conflict_iff repoA jsonA "spanish" 9 5 true).2.1,
   (c7_create_deck_conflict_iff repoA jsonA "spanish" 9 5 true).1⟩

/-! ## Claim theorem: review listing order -/

/-- Claim C8, failing input: neither the in-memory repository nor the
file-backed store sorts `list_reviews_for_card` by `reviewed_at`; they
return the stored insertion order.  Inserting a review stamped 10 and then
one stamped 5 for the same card yields the list [10, 5], which is not
ascending (the sqlite backend, which the contract requires to behave
identically, does sort).  The empty-sequence-on-no-reviews half of the
claim does hold. -/
theorem c8_reviews_listed_in_insertion_order :
    ((((MemoryRepo.empty.insert_review reviewLate).2.insert_review
        reviewEarly).2.list_reviews_for_card 7).map Review.reviewed_at = [10, 5])
    ∧ ¬ List.Sorted (· ≤ ·)
        ((((MemoryRepo.empty.insert_review reviewLate).2.insert_review
          reviewEarly).2.list_reviews_for_card 7).map Review.reviewed_at)
    ∧ MemoryRepo.empty.list_reviews_for_card 7 = []
    ∧ ((((jsonEmpty.insert_review reviewLate 0 true).2.insert_review
        reviewEarly 0 true).2.list_reviews_for_card 7).map Review.reviewed_at = [10, 5]) := by
  refine ⟨rfl, fun hs => ?_, rfl, rfl⟩
  have hs' : List.Sorted (· ≤ ·) ([10, 5] : List Int) := hs
  have := (List.sorted_cons.mp hs').1 5 (by simp)
  omega

/-! ## Claim theorem: failed persistence retains the in-memory mutation -/

/-- Claim C10: for every mutating operation of the file-backed store, when
the in-memory mutation succeeds but the snapshot persistence fails, the
operation returns the Storage error while the in-memory index keeps the
mutation, so a subsequent read on the same store observes the mutated
state. -/
theorem c10_failed_persist_retains_mutation (j : JsonState) (name : String) (card : Card)
    (r : Review) (id newId : Nat) (front back : String) (hint : Option String)
    (tags : List String) (b : Bool) (now : Int) :
    (deckNameConflict j.decks name = false →
        (j.create_deck name newId now false).1 = .error (.storage "io")
        ∧ (j.create_deck name newId now false).2.get_deck newId = .ok ⟨newId, name, now⟩)
    ∧ (mapContains j.decks id = true →
        (j.delete_deck id now false).1 = .error (.storage "io")
        ∧ (j.delete_deck id now false).2.get_deck id = .error (.notFound "deck"))
    ∧ (mapContains j.decks id = true →
        (j.add_card id front back hint tags newId now false).1 = .error (.storage "io")
        ∧ (j.add_card id front back hint tags newId now false).2.get_card newId
            = .ok { Card.mkNew id front back newId now with hint := hint, tags := tags })
    ∧ (mapContains j.cards card.id = true →
        (j.update_card card now false).1 = .error (.storage "io")
        ∧ (j.update_card card now false).2.get_card card.id = .ok card)
    ∧ (mapContains j.cards id = true →
        (j.delete_card id now false).1 = .error (.storage "io")
        ∧ (j.delete_card id now false).2.get_card id = .error (.notFound "card"))
    ∧ (mapContains j.cards id = true →
        (j.set_suspended id b now false).1 = .error (.storage "io")
        ∧ (mapGet (j.set_suspended id b now false).2.cards id).map Card.suspended = some b)
    ∧ ((j.insert_review r now false).1 = .error (.storage "io")
        ∧ (j.insert_review r now false).2.list_reviews_for_card r.card_id
            = j.list_reviews_for_card r.card_id ++ [r]) := by
  refine ⟨fun hc => ?_, fun hc => ?_, fun hc => ?_, fun hc => ?_, fun hc => ?_,
    fun hc => ?_, ?_⟩
  · simp [JsonState.create_deck, hc, JsonState.save, JsonState.get_deck,
      mapGet_mapInsert_self]
  · simp [JsonState.delete_deck, hc, JsonState.save, JsonState.get_deck,
      mapGet_mapRemove_self]
  · simp [JsonState.add_card, hc, JsonState.save, JsonState.get_card, Card.mkNew,
      mapGet_mapInsert_self]
  · simp [JsonState.update_card, hc, JsonState.save, JsonState.get_card,
      mapGet_mapInsert_self]
  · simp [JsonState.delete_card, hc, JsonState.save, JsonState.get_card,
      mapGet_mapRemove_self]
  · have hc' : (mapGet j.cards id).isSome = true := hc
    obtain ⟨c0, hc0⟩ := Option.isSome_iff_exists.mp hc'
    refine ⟨by simp [JsonState.set_suspended, hc, JsonState.save], ?_⟩
    have hred : (JsonState.set_suspended j id b now false).2.cards
        = j.cards.map (fun e =>
            if e.1 == id then (e.1, { e.2 with suspended := b }) else e) := by
      simp [JsonState.set_suspended, hc, JsonState.save]
    rw [hred, mapGet_mapUpdate j.cards id (fun c => { c with suspended := b }), hc0]
    rfl
  · refine ⟨by simp [JsonState.insert_review, JsonState.save], ?_⟩
    simp [JsonState.insert_review, JsonState.save, JsonState.list_reviews_for_card,
      mapGet_mapInsert_self]

theorem c10_failed_persist_retains_mutation_witness :
    (jsonA.set_suspended 2 true 0 false).1 = .error (.storage "io")
    ∧ (mapGet (jsonA.set_suspended 2 true 0 false).2.cards 2).map Card.suspended
        = some true :=
  (c10_failed_persist_retains_mutation jsonA "x" cardA reviewA 2 9 "f" "b" none [] true
      0).2.2.2.2.2.1 (by decide)

/-! ## Helper lemmas for backup rotation -/

theorem sortByMtime_of_sorted (l : List BackupEntry)
    (h : l.Pairwise (fun a b => a.mtime ≤ b.mtime)) : sortByMtime l = l := by
  induction l with
  | nil => rfl
  | cons e l ih =>
      have hp := List.pairwise_cons.mp h
      simp only [sortByMtime]
      rw [ih hp.2]
      cases l with
      | nil => rfl
      | cons f l' =>
          have hef : e.mtime ≤ f.mtime := hp.1 f (by simp)
          simp [insertByMtime, hef]

theorem drop_norm {α : Type} (L M : List α) (k : Nat) :
    (L.drop (L.length - k) ++ M).drop ((L.drop (L.length - k) ++ M).length - k)
      = (L ++ M).drop ((L ++ M).length - k) := by
  have hd : L.length - k ≤ L.length := Nat.sub_le _ _
  rw [← List.drop_append_of_le_length hd, List.drop_drop]
  congr 1
  simp only [List.length_drop, List.length_append]
  omega

theorem filter_name_ne (dir : List BackupEntry) (n : Nat) (h : ∀ e ∈ dir, e.name ≠ n) :
    dir.filter (fun e => e.name != n) = dir := by
  induction dir with
  | nil => rfl
  | cons e l ih =>
      have he := h e (by simp)
      simp [List.filter_cons, he, ih (fun f hf => h f (by simp [hf]))]

theorem writeBackup_eq (dir : List BackupEntry) (n t keep : Nat)
    (hname : ∀ e ∈ dir, e.name ≠ n)
    (hsorted : dir.Pairwise (fun a b => a.mtime < b.mtime))
    (hmt : ∀ e ∈ dir, e.mtime < t) :
    writeBackup dir n t keep
      = (dir ++ [(⟨n, t⟩ : BackupEntry)]).drop
          ((dir ++ [(⟨n, t⟩ : BackupEntry)]).length - keep) := by
  unfold writeBackup rotate_backups
  rw [filter_name_ne dir n hname]
  have hsort : sortByMtime (dir ++ [(⟨n, t⟩ : BackupEntry)])
      = dir ++ [(⟨n, t⟩ : BackupEntry)] := by
    apply sortByMtime_of_sorted
    apply List.pairwise_append.mpr
    refine ⟨hsorted.imp (fun h => le_of_lt h), by simp, ?_⟩
    intro a ha b hb
    simp only [List.mem_singleton] at hb
    rw [hb]
    exact le_of_lt (hmt a ha)
  rw [hsort]
  rcases Nat.lt_or_ge keep (dir ++ [(⟨n, t⟩ : BackupEntry)]).length with hk | hk
  · rw [if_pos hk]
  · rw [if_neg (by omega)]
    have h0 : (dir ++ [(⟨n, t⟩ : BackupEntry)]).length - keep = 0 := by omega
    rw [h0, List.drop_zero]

theorem enumFrom_length (t : Nat) (l : List Nat) : (enumFrom t l).length = l.length := by
  induction l generalizing t with
  | nil => rfl
  | cons n l ih => simp [enumFrom, ih]

theorem runBackupsAux_eq (keep : Nat) (rest : List Nat) :
    ∀ (t : Nat) (dir : List BackupEntry),
      dir.length ≤ keep →
      dir.Pairwise (fun a b => a.mtime < b.mtime) →
      (∀ e ∈ dir, e.mtime < t) →
      (∀ e ∈ dir, e.name ∉ rest) →
      rest.Nodup →
      runBackupsAux keep rest t dir
        = (dir ++ enumFrom t rest).drop ((dir ++ enumFrom t rest).length - keep) := by
  induction rest with
  | nil =>
      intro t dir hlen _ _ _ _
      have h0 : dir.length - keep = 0 := by omega
      simp [runBackupsAux, enumFrom, h0]
  | cons n rest ih =>
      intro t dir hlen hpw hmt hname hnd
      have hnames : ∀ e ∈ dir, e.name ≠ n := fun e he hh => hname e he (by simp [hh])
      have hwb := writeBackup_eq dir n t keep hnames hpw hmt
      have hLpw : (dir ++ [(⟨n, t⟩ : BackupEntry)]).Pairwise (fun a b => a.mtime < b.mtime) := by
        apply List.pairwise_append.mpr
        refine ⟨hpw, by simp, ?_⟩
        intro a ha b hb
        simp only [List.mem_singleton] at hb
        rw [hb]
        exact hmt a ha
      have hlen' : ((dir ++ [(⟨n, t⟩ : BackupEntry)]).drop
          ((dir ++ [(⟨n, t⟩ : BackupEntry)]).length - keep)).length ≤ keep := by
        simp only [List.length_drop]
        omega
      have hpw' := List.Pairwise.sublist
        (List.drop_sublist ((dir ++ [(⟨n, t⟩ : BackupEntry)]).length - keep)
          (dir ++ [(⟨n, t⟩ : BackupEntry)])) hLpw
      have hmt' : ∀ e ∈ (dir ++ [(⟨n, t⟩ : BackupEntry)]).drop
          ((dir ++ [(⟨n, t⟩ : BackupEntry)]).length - keep), e.mtime < t + 1 := by
        intro e he
        rcases List.mem_append.mp (List.mem_of_mem_drop he) with h | h
        · exact Nat.lt_succ_of_lt (hmt e h)
        · simp only [List.mem_singleton] at h
          rw [h]
          exact Nat.lt_succ_self t
      have hname' : ∀ e ∈ (dir ++ [(⟨n, t⟩ : BackupEntry)]).drop
          ((dir ++ [(⟨n, t⟩ : BackupEntry)]).length - keep), e.name ∉ rest := by
        intro e he
        rcases List.mem_append.mp (List.mem_of_mem_drop he) with h | h
        · intro hmem
          exact hname e h (by simp [hmem])
        · simp only [List.mem_singleton] at h
          rw [h]
          exact (List.nodup_cons.mp hnd).1
      have hrec := ih (t + 1) _ hlen' hpw' hmt' hname' (List.nodup_cons.mp hnd).2
      have hassoc : (dir ++ [(⟨n, t⟩ : BackupEntry)]) ++ enumFrom (t + 1) rest
          = dir ++ enumFrom t (n :: rest) := by
        simp [enumFrom]
      calc runBackupsAux keep (n :: rest) t dir
          = runBackupsAux keep rest (t + 1) (writeBackup dir n t keep) := by
            simp only [runBackupsAux]
        _ = ((dir ++ [(⟨n, t⟩ : BackupEntry)]).drop
              ((dir ++ [(⟨n, t⟩ : BackupEntry)]).length - keep) ++ enumFrom (t + 1) rest).drop
              (((dir ++ [(⟨n, t⟩ : BackupEntry)]).drop
                ((dir ++ [(⟨n, t⟩ : BackupEntry)]).length - keep)
                  ++ enumFrom (t + 1) rest).length - keep) := by
            rw [hwb]
            exact hrec
        _ = ((dir ++ [(⟨n, t⟩ : BackupEntry)]) ++ enumFrom (t + 1) rest).drop
              (((dir ++ [(⟨n, t⟩ : BackupEntry)]) ++ enumFrom (t + 1) rest).length - keep) :=
            drop_norm _ _ _
        _ = (dir ++ enumFrom t (n :: rest)).drop
              ((dir ++ enumFrom t (n :: rest)).length - keep) := by
            rw [hassoc]

/-! ## Claim theorems: backup rotation -/

/-- Claim C9, counterexample: backup file names have one-second
granularity, and a same-named backup is overwritten, so three successful
snapshot writes within one second (three writes of the same backup name)
with retention 2 leave one backup file, not two — the claim's "after N
writes with retention K < N, exactly K backup files remain" fails as
stated. -/
theorem c9_same_second_collision :
    effectiveRetention 2 = 2
    ∧ 2 < ([0, 0, 0] : List Nat).length
    ∧ (runBackups [0, 0, 0] (effectiveRetention 2)).length = 1
    ∧ (runBackups [0, 0, 0] (effectiveRetention 2)).length ≠ 2 := by
  decide

/-- Claim C9 (amended): rotation lists the backup files, sorts them by
modification time ascending and deletes the oldest entries beyond the
retention count, which is at least 1 (a configured 0 is raised to 1); after
N successful snapshot writes whose backup timestamps are pairwise distinct,
with retention K < N, exactly K backup files remain and they are the K most
recently written (writes colliding on the same backup timestamp overwrite
one file and can leave fewer). -/
theorem c9_backup_rotation_keeps_latest (names : List Nat) (K m : Nat) :
    1 ≤ effectiveRetention m
    ∧ (1 ≤ m → effectiveRetention m = m)
    ∧ (names.Nodup → K < names.length →
        runBackups names K = (enumFrom 0 names).drop (names.length - K)
        ∧ (runBackups names K).length = K) := by
  refine ⟨Nat.le_max_right m 1, fun h => Nat.max_eq_left h, fun hnd hK => ?_⟩
  have h := runBackupsAux_eq K names 0 [] (by simp) (by simp) (by simp) (by simp) hnd
  have hmain : runBackups names K = (enumFrom 0 names).drop (names.length - K) := by
    rw [runBackups, h]
    simp [enumFrom_length]
  refine ⟨hmain, ?_⟩
  rw [hmain]
  simp only [List.length_drop, enumFrom_length]
  omega

theorem c9_backup_rotation_keeps_latest_witness :
    effectiveRetention 2 = 2
    ∧ (runBackups [10, 20, 30] 2
        = (enumFrom 0 [10, 20, 30]).drop (([10, 20, 30] : List Nat).length - 2)
      ∧ (runBackups [10, 20, 30] 2).length = 2) :=
  ⟨(c9_backup_rotation_keeps_latest [10, 20, 30] 2 2).2.1 (by norm_num),
   (c9_backup_rotation_keeps_latest [10, 20, 30] 2 2).2.2 (by decide) (by decide)⟩

end Flashmaster
